import Mathlib

/-!
Verification of the MythTV decode-to-render interop layer and the CoreAudio
render callback.

Sources embedded:
- `MythOpenGLInterop` (mythopenglinterop.h): the `Type` enumeration, the
  selector entry points `GetInteropType` / `GetAllowedRenderers`, the
  per-instance texture cache `m_openglTextures` keyed by 64-bit surface
  handle, and the `Acquire` contract.  Only the class declaration is in the
  tree; the member-function bodies are modelled from the specification
  (section 4 of the spec), as marked on each definition.
- `AudioOutputCA::RenderAudio` and `RenderCallbackAnalog`
  (audiooutputca.cpp): embedded directly from the source.

Machine integers: surface handles are `unsigned long long` compared only for
equality, texture ids are opaque; both are modelled as `Nat`.  Buffer bytes
are modelled as `Nat`.
-/

namespace MythTV

/-- The `MythOpenGLInterop::Type` enumeration, from mythopenglinterop.h. -/
inductive InteropType where
  | Unsupported
  | VAAPIGLXCOPY
  | VAAPIGLXPIX
  | VAAPIEGLDRM
  | VTBOPENGL
  | VTBSURFACE
  | MEDIACODEC
  | VDPAU
  | NVDEC
deriving DecidableEq, Repr, Fintype

/-- Numeric value of each enumerator, from the source: `Unsupported = 0,
VAAPIGLXCOPY = 1, ... VDPAU = 7`, and `NVDEC` takes the next value 8 by the
C enumeration rule. -/
def typeValue : InteropType → Nat
  | .Unsupported  => 0
  | .VAAPIGLXCOPY => 1
  | .VAAPIGLXPIX  => 2
  | .VAAPIEGLDRM  => 3
  | .VTBOPENGL    => 4
  | .VTBSURFACE   => 5
  | .MEDIACODEC   => 6
  | .VDPAU        => 7
  | .NVDEC        => 8

/-- Modelled from the spec: the codec descriptor (`MythCodecID`) as far as
the selector consumes it — the hardware decode acceleration family the
codec id was negotiated for, or a plain software codec.  The implementation
of `GetInteropType` is not in the tree. -/
inductive CodecAccel where
  | vaapi
  | vtb
  | mediacodec
  | vdpau
  | nvdec
  | software
deriving DecidableEq, Repr, Fintype

/-- Modelled from the spec: the platform / backend availability flags the
selector consults (the source keeps these as process-wide probe results such
as `MythVDPAUHelper::gVDPAUAvailable`). -/
structure Platform where
  vaapiEGLDRM  : Bool
  vaapiGLXPix  : Bool
  vaapiGLXCopy : Bool
  vtbSurface   : Bool
  vtbOpenGL    : Bool
  mediacodec   : Bool
  vdpau        : Bool
  nvdec        : Bool
deriving DecidableEq, Repr

/-- Modelled from the spec: `GetInteropType(codecDescriptor) -> InteropType`
(mythopenglinterop.h line 121; body not in the tree).  Pure function of the
codec family and the availability flags; prefers a zero-copy backend over a
copy-based fallback for the same family; returns `Unsupported` when no
hardware backend matches. -/
def GetInteropType (c : CodecAccel) (p : Platform) : InteropType :=
  match c with
  | .vaapi =>
      if p.vaapiEGLDRM then .VAAPIEGLDRM
      else if p.vaapiGLXPix then .VAAPIGLXPIX
      else if p.vaapiGLXCopy then .VAAPIGLXCOPY
      else .Unsupported
  | .vtb =>
      if p.vtbSurface then .VTBSURFACE
      else if p.vtbOpenGL then .VTBOPENGL
      else .Unsupported
  | .mediacodec => if p.mediacodec then .MEDIACODEC else .Unsupported
  | .vdpau      => if p.vdpau then .VDPAU else .Unsupported
  | .nvdec      => if p.nvdec then .NVDEC else .Unsupported
  | .software   => .Unsupported

/-- Modelled from the spec: a (codec, platform) pair is supported when some
hardware backend of the codec's acceleration family is available on the
platform. -/
def supportedPair (c : CodecAccel) (p : Platform) : Bool :=
  match c with
  | .vaapi      => p.vaapiEGLDRM || p.vaapiGLXPix || p.vaapiGLXCopy
  | .vtb        => p.vtbSurface || p.vtbOpenGL
  | .mediacodec => p.mediacodec
  | .vdpau      => p.vdpau
  | .nvdec      => p.nvdec
  | .software   => false

/-- Modelled from the spec: the renderer names that never need a hardware
interop backend. -/
def softwareRenderers : List String := ["opengl"]

/-- Modelled from the spec: `GetAllowedRenderers(codecDescriptor)`
(mythopenglinterop.h line 120; body not in the tree) enumerates every
renderer capable of displaying the codec: the hardware interop renderer when
a backend is viable, and the software renderer otherwise. -/
def GetAllowedRenderers (c : CodecAccel) (p : Platform) : List String :=
  if supportedPair c p then "opengl-hw" :: softwareRenderers
  else softwareRenderers

end MythTV

namespace MythTV.Interop

/-- A `TextureSet` is modelled by the list of native texture ids backing it
(`vector<MythVideoTexture*>` in the source). -/
abbrev TextureSet := List Nat

/-- The texture cache: `QHash<unsigned long long, vector<MythVideoTexture*>>
m_openglTextures` (mythopenglinterop.h line 140), modelled as an association
list from surface handle to texture set. -/
abbrev Cache := List (Nat × TextureSet)

/-- Cache lookup by surface handle (`QHash` find, equality by handle
value). -/
def lookup : Cache → Nat → Option TextureSet
  | [], _ => none
  | e :: r, h => if e.1 = h then some e.2 else lookup r h

/-- The handles present in the cache. -/
def keys (c : Cache) : List Nat := c.map Prod.fst

/-- All native texture ids referenced by the cache entries. -/
def texturesOf : Cache → List Nat
  | [] => []
  | e :: r => e.2 ++ texturesOf r

/-- State of one Interop Instance: the graphics-context binding and the
`InteropType` fixed at construction (`m_context`, `m_type`), the texture
cache (`m_openglTextures`), the live native textures this instance has
created and not yet destroyed, and a fresh-id counter whose value is also
the total number of texture-set allocations performed. -/
structure InteropState where
  m_context        : Nat
  m_type           : InteropType
  m_openglTextures : Cache
  allocations      : List Nat
  nextId           : Nat
deriving DecidableEq, Repr

/-- Constructor `MythOpenGLInterop(Context, InteropType)`
(mythopenglinterop.h line 135): binds the context and type, starts with an
empty cache and no allocations. -/
def mkInterop (ctx : Nat) (ty : InteropType) : InteropState :=
  ⟨ctx, ty, [], [], 0⟩

/-- `GetType` (mythopenglinterop.h line 132): returns the `InteropType`
fixed at construction. -/
def GetType (st : InteropState) : InteropType := st.m_type

/-- Modelled from the spec: `Acquire(surface, colourTransform, scanMode)`
(mythopenglinterop.h lines 129-131; the per-backend bodies are not in the
tree).  `live` is the provider's current live-handle set, `h` the surface
handle, `importOk` whether the backend-specific native import succeeds.
A handle outside the live set yields an empty texture set with no state
change; a cache hit returns the cached set; a miss performs the native
import, allocating a fresh texture set and inserting a cache entry on
success, and yields an empty set with no state change on failure. -/
def Acquire (st : InteropState) (live : List Nat) (h : Nat) (importOk : Bool) :
    InteropState × TextureSet :=
  if h ∈ live then
    match lookup st.m_openglTextures h with
    | some ts => (st, ts)
    | none =>
        if importOk then
          let tex : TextureSet := [st.nextId]
          ({ st with
              m_openglTextures := (h, tex) :: st.m_openglTextures,
              allocations := st.nextId :: st.allocations,
              nextId := st.nextId + 1 }, tex)
        else (st, [])
  else (st, [])

/-- Modelled from the spec: `evictStale(liveHandles)` (spec section 4.3;
body not in the tree).  Every cache entry whose handle is absent from the
live set is released — its native textures destroyed and the entry removed;
entries whose handles are live are kept unchanged. -/
def evictStale (st : InteropState) (live : List Nat) : InteropState :=
  let stale := st.m_openglTextures.filter (fun e => decide (e.1 ∉ live))
  { st with
      m_openglTextures := st.m_openglTextures.filter (fun e => decide (e.1 ∈ live)),
      allocations := st.allocations.filter (fun t => decide (t ∉ texturesOf stale)) }

/-- Modelled from the spec: the destructor `~MythOpenGLInterop`
(mythopenglinterop.h line 128; body not in the tree) releases every cached
texture set before the context reference is dropped. -/
def destroy (st : InteropState) : InteropState :=
  { st with
      m_openglTextures := [],
      allocations :=
        st.allocations.filter (fun t => decide (t ∉ texturesOf st.m_openglTextures)) }

/-- One operation of the per-frame protocol on an Interop Instance. -/
inductive InteropOp where
  | acquire (live : List Nat) (h : Nat) (importOk : Bool)
  | evict (live : List Nat)

/-- Apply one operation to the instance state. -/
def stepOp (st : InteropState) : InteropOp → InteropState
  | .acquire live h ok => (Acquire st live h ok).1
  | .evict live => evictStale st live

/-- Run a sequence of operations. -/
def runOps (st : InteropState) (ops : List InteropOp) : InteropState :=
  ops.foldl stepOp st

/-- Does the operation insert at most one cache entry (an `Acquire`)? -/
def isAcquireOp : InteropOp → Bool
  | .acquire _ _ _ => true
  | .evict _ => false

/-- A concrete instance state reached after acquiring surfaces 1, 2 and 3:
three cache entries backed by textures 10, 11 and 12. -/
def sampleState : InteropState :=
  ⟨0, InteropType.VDPAU, [(1, [10]), (2, [11]), (3, [12])], [10, 11, 12], 3⟩

end MythTV.Interop

namespace MythTV

/-- A platform on which every hardware backend probe succeeded. -/
def allPlatform : Platform :=
  ⟨true, true, true, true, true, true, true, true⟩

end MythTV

namespace MythTV.CA

/-- The `AudioOutputCA` flags read and written by `RenderAudio`
(audiooutputca.cpp lines 349-386). -/
structure CAState where
  m_pauseAudio     : Bool
  m_killAudio      : Bool
  m_actuallyPaused : Bool
deriving DecidableEq, Repr

/-- `GetAudioData(aubuf, size, false)`: copies at most `size` bytes of real
audio out of the output ring buffer into the callback buffer and returns how
many were written.  Modelled on the byte level: `avail` is the pending real
audio, the result is the bytes actually written (a prefix of `avail` of
length `min avail.length size`). -/
def GetAudioData (avail : List Nat) (size : Nat) : List Nat := avail.take size

/-- `AudioOutputCA::RenderAudio(aubuf, size, timestamp)` (audiooutputca.cpp
lines 349-386), on the byte level.  `aubuf` is the callback buffer with its
prior (stale) contents, `avail` the pending real audio bytes; result is the
state, the buffer contents after the call, and the return value.  When
paused or killed it sets `m_actuallyPaused` and returns false without
touching the buffer; otherwise it writes `written_size` real bytes, zero
fills the tail on a partial write (`memset(aubuf + written_size, 0,
size - written_size)` guarded by `written_size && size > written_size`), and
returns `written_size > 0`.  The 8-channel SMPTE-to-CA in-place reorder and
the floating-point `m_bufferedBytes` bookkeeping are outside this model. -/
def RenderAudio (st : CAState) (aubuf : List Nat) (avail : List Nat) :
    CAState × List Nat × Bool :=
  if st.m_pauseAudio || st.m_killAudio then
    ({ st with m_actuallyPaused := true }, aubuf, false)
  else
    let size := aubuf.length
    let written := GetAudioData avail size
    let ws := written.length
    let buf1 := written ++ aubuf.drop ws
    let buf2 :=
      if ws != 0 && decide (ws < size) then buf1.take ws ++ List.replicate (size - ws) 0
      else buf1
    (st, buf2, decide (0 < ws))

/-- `RenderCallbackAnalog` (audiooutputca.cpp lines 417-435): invokes
`RenderAudio` on the device buffer; when it returns false the whole buffer
is cleared to silence and `kAudioUnitRenderAction_OutputIsSilence` is set
(the Bool in the result). -/
def RenderCallbackAnalog (st : CAState) (aubuf : List Nat) (avail : List Nat) :
    CAState × List Nat × Bool :=
  let r := RenderAudio st aubuf avail
  if r.2.2 then (r.1, r.2.1, false)
  else (r.1, List.replicate aubuf.length 0, true)

end MythTV.CA

namespace MythTV.Interop

theorem lookup_eq_none_iff (c : Cache) (h : Nat) :
    lookup c h = none ↔ h ∉ keys c := by
  induction c with
  | nil => simp [lookup, keys]
  | cons e r ih =>
      by_cases he : e.1 = h
      · simp [lookup, keys, he]
      · simp [lookup, keys, he, ih, Ne.symm he]

theorem mem_keys_of_lookup_some {c : Cache} {h : Nat} {ts : TextureSet}
    (hl : lookup c h = some ts) : h ∈ keys c := by
  by_contra hk
  rw [← lookup_eq_none_iff] at hk
  rw [hk] at hl
  exact Option.noConfusion hl

theorem lookup_cons_self (c : Cache) (h : Nat) (ts : TextureSet) :
    lookup ((h, ts) :: c) h = some ts := by
  simp [lookup]

theorem lookup_filter_of_mem {S : List Nat} {h : Nat} (hS : h ∈ S) (c : Cache) :
    lookup (c.filter (fun e => decide (e.1 ∈ S))) h = lookup c h := by
  induction c with
  | nil => simp
  | cons e r ih =>
      by_cases he : e.1 = h
      · subst he
        simp [List.filter_cons, hS, lookup]
      · by_cases hm : e.1 ∈ S
        · simp [List.filter_cons, hm, lookup, he, ih]
        · simp [List.filter_cons, hm, lookup, he, ih]

theorem lookup_filter_of_not_mem {S : List Nat} {h : Nat} (hS : h ∉ S) (c : Cache) :
    lookup (c.filter (fun e => decide (e.1 ∈ S))) h = none := by
  induction c with
  | nil => simp [lookup]
  | cons e r ih =>
      by_cases hm : e.1 ∈ S
      · have he : e.1 ≠ h := fun hx => hS (hx ▸ hm)
        simp [List.filter_cons, hm, lookup, he, ih]
      · simp [List.filter_cons, hm, ih]

theorem mem_texturesOf_partition {t : Nat} (live : List Nat) (c : Cache)
    (ht : t ∈ texturesOf c) :
    t ∈ texturesOf (c.filter (fun e => decide (e.1 ∈ live))) ∨
    t ∈ texturesOf (c.filter (fun e => decide (e.1 ∉ live))) := by
  induction c with
  | nil => simp [texturesOf] at ht
  | cons e r ih =>
      rw [texturesOf, List.mem_append] at ht
      by_cases hm : e.1 ∈ live
      · rcases ht with ht | ht
        · exact Or.inl (by simp [List.filter_cons, hm, texturesOf, ht])
        · rcases ih ht with hx | hx
          · exact Or.inl (by simp [List.filter_cons, hm, texturesOf, hx])
          · exact Or.inr (by simpa [List.filter_cons, hm, decide_not] using hx)
      · rcases ht with ht | ht
        · exact Or.inr (by simp [List.filter_cons, hm, texturesOf, ht])
        · rcases ih ht with hx | hx
          · exact Or.inl (by simp [List.filter_cons, hm, hx])
          · refine Or.inr ?_
            have hgoal :
                t ∈ texturesOf ((e :: r).filter (fun e => decide (e.1 ∉ live))) := by
              simp [List.filter_cons, hm, texturesOf]
              exact Or.inr (by simpa [decide_not] using hx)
            exact hgoal

theorem Acquire_not_live {st : InteropState} {live : List Nat} {h : Nat} {ok : Bool}
    (hl : h ∉ live) : Acquire st live h ok = (st, []) := by
  simp [Acquire, hl]

theorem Acquire_hit {st : InteropState} {live : List Nat} {h : Nat} {ok : Bool}
    {ts : TextureSet} (hl : h ∈ live) (hc : lookup st.m_openglTextures h = some ts) :
    Acquire st live h ok = (st, ts) := by
  simp [Acquire, hl, hc]

theorem Acquire_miss_ok {st : InteropState} {live : List Nat} {h : Nat}
    (hl : h ∈ live) (hc : lookup st.m_openglTextures h = none) :
    Acquire st live h true =
      ({ st with
          m_openglTextures := (h, [st.nextId]) :: st.m_openglTextures,
          allocations := st.nextId :: st.allocations,
          nextId := st.nextId + 1 }, [st.nextId]) := by
  simp [Acquire, hl, hc]

theorem Acquire_miss_fail {st : InteropState} {live : List Nat} {h : Nat}
    (hl : h ∈ live) (hc : lookup st.m_openglTextures h = none) :
    Acquire st live h false = (st, []) := by
  simp [Acquire, hl, hc]

/-- Every live allocation of the instance is referenced by some cache
entry. -/
def AllocInv (st : InteropState) : Prop :=
  ∀ t ∈ st.allocations, t ∈ texturesOf st.m_openglTextures

theorem allocInv_mkInterop (ctx : Nat) (ty : InteropType) :
    AllocInv (mkInterop ctx ty) := by
  intro t ht
  simp [mkInterop] at ht

theorem allocInv_stepOp {st : InteropState} (hinv : AllocInv st) (op : InteropOp) :
    AllocInv (stepOp st op) := by
  cases op with
  | acquire live h ok =>
      by_cases hl : h ∈ live
      · cases hc : lookup st.m_openglTextures h with
        | some ts =>
            rw [stepOp, Acquire_hit hl hc]
            exact hinv
        | none =>
            cases ok with
            | false =>
                rw [stepOp, Acquire_miss_fail hl hc]
                exact hinv
            | true =>
                rw [stepOp, Acquire_miss_ok hl hc]
                intro t ht
                rcases List.mem_cons.mp ht with ht | ht
                · simp [texturesOf, ht]
                · simp only [texturesOf, List.mem_append]
                  exact Or.inr (hinv t ht)
      · rw [stepOp, Acquire_not_live hl]
        exact hinv
  | evict live =>
      intro t ht
      rw [stepOp, evictStale] at ht ⊢
      simp only [List.mem_filter, decide_eq_true_eq] at ht
      rcases ht with ⟨hta, hts⟩
      rcases mem_texturesOf_partition live st.m_openglTextures (hinv t hta) with hx | hx
      · exact hx
      · exact absurd hx hts

theorem allocInv_runOps (ctx : Nat) (ty : InteropType) (ops : List InteropOp) :
    AllocInv (runOps (mkInterop ctx ty) ops) := by
  have hgen : ∀ (st : InteropState), AllocInv st → AllocInv (runOps st ops) := by
    induction ops with
    | nil => intro st h; simpa [runOps] using h
    | cons op rest ih =>
        intro st h
        have hstep := allocInv_stepOp h op
        simpa [runOps, List.foldl_cons] using ih (stepOp st op) hstep
  exact hgen _ (allocInv_mkInterop ctx ty)

/-- `stepOp` never touches the context binding or the interop type. -/
theorem stepOp_context_type (st : InteropState) (op : InteropOp) :
    (stepOp st op).m_context = st.m_context ∧ (stepOp st op).m_type = st.m_type := by
  cases op with
  | acquire live h ok =>
      by_cases hl : h ∈ live
      · cases hc : lookup st.m_openglTextures h with
        | some ts => rw [stepOp, Acquire_hit hl hc]; exact ⟨rfl, rfl⟩
        | none =>
            cases ok with
            | false => rw [stepOp, Acquire_miss_fail hl hc]; exact ⟨rfl, rfl⟩
            | true => rw [stepOp, Acquire_miss_ok hl hc]; exact ⟨rfl, rfl⟩
      · rw [stepOp, Acquire_not_live hl]; exact ⟨rfl, rfl⟩
  | evict live => rw [stepOp, evictStale]; exact ⟨rfl, rfl⟩

theorem runOps_context_type (st : InteropState) (ops : List InteropOp) :
    (runOps st ops).m_context = st.m_context ∧ (runOps st ops).m_type = st.m_type := by
  induction ops generalizing st with
  | nil => simp [runOps]
  | cons op rest ih =>
      have h1 := stepOp_context_type st op
      have h2 := ih (stepOp st op)
      rw [runOps, List.foldl_cons] at *
      exact ⟨h2.1.trans h1.1, h2.2.trans h1.2⟩

/-- The cache keys stay duplicate free under every operation. -/
theorem keys_nodup_stepOp {st : InteropState} (hnd : (keys st.m_openglTextures).Nodup)
    (op : InteropOp) : (keys (stepOp st op).m_openglTextures).Nodup := by
  cases op with
  | acquire live h ok =>
      by_cases hl : h ∈ live
      · cases hc : lookup st.m_openglTextures h with
        | some ts => rw [stepOp, Acquire_hit hl hc]; exact hnd
        | none =>
            cases ok with
            | false => rw [stepOp, Acquire_miss_fail hl hc]; exact hnd
            | true =>
                rw [stepOp, Acquire_miss_ok hl hc]
                have hk : h ∉ keys st.m_openglTextures :=
                  (lookup_eq_none_iff _ _).mp hc
                simpa [keys] using List.Nodup.cons hk hnd
      · rw [stepOp, Acquire_not_live hl]; exact hnd
  | evict live =>
      rw [stepOp, evictStale]
      have hsub : List.Sublist
          (keys (st.m_openglTextures.filter (fun e => decide (e.1 ∈ live))))
          (keys st.m_openglTextures) :=
        List.Sublist.map Prod.fst (List.filter_sublist _)
      exact List.Nodup.sublist hsub hnd

/-- A run of `Acquire` calls for the handles `hs`, all against the same
live-handle set, with every native import succeeding. -/
def acquireOps (live : List Nat) (hs : List Nat) : List InteropOp :=
  hs.map (fun h => InteropOp.acquire live h true)

theorem runOps_acquireOps_cons (st : InteropState) (live : List Nat) (h : Nat)
    (hs : List Nat) :
    runOps st (acquireOps live (h :: hs)) =
      runOps (stepOp st (.acquire live h true)) (acquireOps live hs) := by
  simp [acquireOps, runOps, List.foldl_cons]

theorem nextId_eq_keys_length_run (live : List Nat) (hs : List Nat) :
    ∀ st : InteropState, st.nextId = (keys st.m_openglTextures).length →
      (runOps st (acquireOps live hs)).nextId =
        (keys (runOps st (acquireOps live hs)).m_openglTextures).length := by
  induction hs with
  | nil => intro st h; simpa [acquireOps, runOps] using h
  | cons h t ih =>
      intro st hst
      rw [runOps_acquireOps_cons]
      by_cases hl : h ∈ live
      · cases hc : lookup st.m_openglTextures h with
        | some ts =>
            rw [stepOp, Acquire_hit hl hc]
            exact ih st hst
        | none =>
            rw [stepOp, Acquire_miss_ok hl hc]
            exact ih _ (by simp [keys, hst])
      · rw [stepOp, Acquire_not_live hl]
        exact ih st hst

theorem mem_keys_run_acquires (live : List Nat) (hs : List Nat) :
    ∀ st : InteropState, (∀ h ∈ hs, h ∈ live) → ∀ x : Nat,
      (x ∈ keys (runOps st (acquireOps live hs)).m_openglTextures ↔
        x ∈ keys st.m_openglTextures ∨ x ∈ hs) := by
  induction hs with
  | nil => intro st _ x; simp [acquireOps, runOps]
  | cons h t ih =>
      intro st hlive x
      have hl : h ∈ live := hlive h (List.mem_cons_self h t)
      have hlt : ∀ a ∈ t, a ∈ live := fun a ha => hlive a (List.mem_cons_of_mem h ha)
      rw [runOps_acquireOps_cons]
      cases hc : lookup st.m_openglTextures h with
      | some ts =>
          rw [stepOp, Acquire_hit hl hc]
          have hk : h ∈ keys st.m_openglTextures := mem_keys_of_lookup_some hc
          rw [ih st hlt x]
          constructor
          · rintro (hx | hx)
            · exact Or.inl hx
            · exact Or.inr (List.mem_cons_of_mem h hx)
          · rintro (hx | hx)
            · exact Or.inl hx
            · rcases List.mem_cons.mp hx with rfl | hx
              · exact Or.inl hk
              · exact Or.inr hx
      | none =>
          rw [stepOp, Acquire_miss_ok hl hc]
          rw [ih _ hlt x]
          simp only [keys, List.map_cons, List.mem_cons]
          constructor
          · rintro ((rfl | hx) | hx)
            · exact Or.inr (Or.inl rfl)
            · exact Or.inl hx
            · exact Or.inr (Or.inr hx)
          · rintro (hx | (rfl | hx))
            · exact Or.inl (Or.inr hx)
            · exact Or.inl (Or.inl rfl)
            · exact Or.inr hx

theorem keys_nodup_runOps (ctx : Nat) (ty : InteropType) (ops : List InteropOp) :
    (keys (runOps (mkInterop ctx ty) ops).m_openglTextures).Nodup := by
  have hgen : ∀ (st : InteropState), (keys st.m_openglTextures).Nodup →
      (keys (runOps st ops).m_openglTextures).Nodup := by
    induction ops with
    | nil => intro st h; simpa [runOps] using h
    | cons op rest ih =>
        intro st h
        simpa [runOps, List.foldl_cons] using ih (stepOp st op) (keys_nodup_stepOp h op)
  exact hgen _ (by simp [mkInterop, keys])

theorem length_le_dedup_length {l m : List Nat} (hnd : l.Nodup)
    (hsub : ∀ x ∈ l, x ∈ m) : l.length ≤ m.dedup.length := by
  have h1 : l.toFinset.card = l.length := List.toFinset_card_of_nodup hnd
  have h2 : l.toFinset ⊆ m.toFinset := by
    intro x hx
    rw [List.mem_toFinset] at hx ⊢
    exact hsub x hx
  have h3 : m.toFinset.card = m.dedup.length := List.card_toFinset m
  calc l.length = l.toFinset.card := h1.symm
    _ ≤ m.toFinset.card := Finset.card_le_card h2
    _ = m.dedup.length := h3

theorem evictStale_size_le {st : InteropState}
    (hnd : (keys st.m_openglTextures).Nodup) (live : List Nat) :
    (evictStale st live).m_openglTextures.length ≤ live.dedup.length := by
  rw [evictStale]
  have hlen : (st.m_openglTextures.filter (fun e => decide (e.1 ∈ live))).length =
      (keys (st.m_openglTextures.filter (fun e => decide (e.1 ∈ live)))).length := by
    simp [keys]
  have hknd : (keys (st.m_openglTextures.filter (fun e => decide (e.1 ∈ live)))).Nodup :=
    List.Nodup.sublist (List.Sublist.map Prod.fst (List.filter_sublist _)) hnd
  have hmem : ∀ x ∈ keys (st.m_openglTextures.filter (fun e => decide (e.1 ∈ live))),
      x ∈ live := by
    intro x hx
    rcases List.mem_map.mp hx with ⟨e, he, rfl⟩
    rcases List.mem_filter.mp he with ⟨_, hp⟩
    exact of_decide_eq_true hp
  calc (st.m_openglTextures.filter (fun e => decide (e.1 ∈ live))).length
      = _ := hlen
    _ ≤ live.dedup.length := length_le_dedup_length hknd hmem

theorem stepOp_size_le (st : InteropState) (op : InteropOp) :
    (stepOp st op).m_openglTextures.length ≤
      st.m_openglTextures.length + (if isAcquireOp op then 1 else 0) := by
  cases op with
  | acquire live h ok =>
      by_cases hl : h ∈ live
      · cases hc : lookup st.m_openglTextures h with
        | some ts => rw [stepOp, Acquire_hit hl hc]; simp [isAcquireOp]
        | none =>
            cases ok with
            | false => rw [stepOp, Acquire_miss_fail hl hc]; simp [isAcquireOp]
            | true => rw [stepOp, Acquire_miss_ok hl hc]; simp [isAcquireOp]
      · rw [stepOp, Acquire_not_live hl]; simp [isAcquireOp]
  | evict live =>
      rw [stepOp, evictStale]
      simp only [isAcquireOp]
      have := List.length_filter_le (fun e => decide (e.1 ∈ live)) st.m_openglTextures
      omega

theorem runOps_size_le (ops : List InteropOp) :
    ∀ st : InteropState, (runOps st ops).m_openglTextures.length ≤
      st.m_openglTextures.length + ops.countP isAcquireOp := by
  induction ops with
  | nil => intro st; simp [runOps, List.countP_nil]
  | cons op rest ih =>
      intro st
      have h1 : runOps st (op :: rest) = runOps (stepOp st op) rest := by
        simp [runOps, List.foldl_cons]
      have h2 := ih (stepOp st op)
      have h3 := stepOp_size_le st op
      rw [h1, List.countP_cons]
      by_cases hop : isAcquireOp op
      · simp only [hop, if_true] at h3 ⊢
        omega
      · simp only [hop, if_false] at h3
        simp only [Bool.not_eq_true] at hop
        rw [hop]
        omega

end MythTV.Interop

namespace MythTV.Interop

/-- C1: calling `Acquire` twice in a row for the same handle and fixed
parameters (same live set, same import outcome) returns the same texture
set and leaves the state unchanged by the second call; and a run of
`Acquire` calls over handles that are all live, with every import
succeeding, performs exactly one native texture-set allocation per distinct
handle (e.g. 10 calls over handles 1,2,3 allocate 3 sets). -/
theorem acquire_idempotent_distinct_allocations :
    (∀ (st : InteropState) (live : List Nat) (h : Nat) (ok : Bool),
        Acquire (Acquire st live h ok).1 live h ok = Acquire st live h ok) ∧
    (∀ (ctx : Nat) (ty : InteropType) (live hs : List Nat),
        (∀ h ∈ hs, h ∈ live) →
        (runOps (mkInterop ctx ty) (acquireOps live hs)).nextId = hs.dedup.length) := by
  constructor
  · intro st live h ok
    by_cases hl : h ∈ live
    · cases hc : lookup st.m_openglTextures h with
      | some ts =>
          have h1 : Acquire st live h ok = (st, ts) := Acquire_hit hl hc
          rw [h1]
          simpa using h1
      | none =>
          cases ok with
          | false =>
              rw [Acquire_miss_fail hl hc]
              simpa using Acquire_miss_fail hl hc
          | true =>
              rw [Acquire_miss_ok hl hc]
              exact Acquire_hit hl (lookup_cons_self st.m_openglTextures h [st.nextId])
    · have h1 : Acquire st live h ok = (st, []) := Acquire_not_live hl
      rw [h1]
      simpa using h1
  · intro ctx ty live hs hlive
    have h0 : (mkInterop ctx ty).nextId =
        (keys (mkInterop ctx ty).m_openglTextures).length := by
      simp [mkInterop, keys]
    have h1 := nextId_eq_keys_length_run live hs (mkInterop ctx ty) h0
    have h2 := mem_keys_run_acquires live hs (mkInterop ctx ty) hlive
    have h3 := keys_nodup_runOps ctx ty (acquireOps live hs)
    have h4 : ∀ x : Nat,
        x ∈ keys (runOps (mkInterop ctx ty) (acquireOps live hs)).m_openglTextures ↔
          x ∈ hs.dedup := by
      intro x
      rw [h2 x, List.mem_dedup]
      simp [mkInterop, keys]
    have h5 := (List.perm_ext_iff_of_nodup h3 (List.nodup_dedup hs)).mpr h4
    rw [h1, h5.length_eq]

/-- Witness for C1: ten `Acquire` calls cycling over the live handles
1, 2, 3 from a fresh instance allocate exactly three texture sets. -/
theorem acquire_idempotent_distinct_allocations_witness :
    (runOps (mkInterop 0 InteropType.VDPAU)
        (acquireOps [1, 2, 3] [1, 2, 3, 1, 2, 3, 1, 2, 3, 1])).nextId = 3 :=
  (acquire_idempotent_distinct_allocations.2 0 InteropType.VDPAU [1, 2, 3]
      [1, 2, 3, 1, 2, 3, 1, 2, 3, 1] (by decide)).trans (by decide)

/-- C2: the cache holds at most one entry per surface handle along every
operation sequence from a fresh instance; after `evictStale` with a
live-handle set of K distinct handles the cache holds at most K entries;
and after further operations it holds at most K plus the number of
`Acquire` calls since, so it never grows without bound. -/
theorem cache_bounded :
    (∀ (ctx : Nat) (ty : InteropType) (ops : List InteropOp),
        (keys (runOps (mkInterop ctx ty) ops).m_openglTextures).Nodup) ∧
    (∀ (st : InteropState) (live : List Nat),
        (keys st.m_openglTextures).Nodup →
        (evictStale st live).m_openglTextures.length ≤ live.dedup.length) ∧
    (∀ (st : InteropState) (live : List Nat) (ops : List InteropOp),
        (keys st.m_openglTextures).Nodup →
        (runOps (evictStale st live) ops).m_openglTextures.length ≤
          live.dedup.length + ops.countP isAcquireOp) := by
  refine ⟨keys_nodup_runOps, fun st live hnd => evictStale_size_le hnd live, ?_⟩
  intro st live ops hnd
  have h1 := runOps_size_le ops (evictStale st live)
  have h2 := evictStale_size_le hnd live
  omega

/-- Witness for C2: evicting the sample three-entry cache against the
live set 2, 3 leaves at most two entries, and one further acquire keeps
the cache within three entries. -/
theorem cache_bounded_witness :
    (keys (runOps (mkInterop 0 InteropType.VDPAU) []).m_openglTextures).Nodup ∧
    (evictStale sampleState [2, 3]).m_openglTextures.length ≤
      ([2, 3] : List Nat).dedup.length ∧
    (runOps (evictStale sampleState [2, 3]) [InteropOp.acquire [2, 3, 4] 4 true]
        ).m_openglTextures.length ≤
      ([2, 3] : List Nat).dedup.length +
        ([InteropOp.acquire [2, 3, 4] 4 true]).countP isAcquireOp :=
  ⟨cache_bounded.1 0 InteropType.VDPAU [],
   cache_bounded.2.1 sampleState [2, 3] (by decide),
   cache_bounded.2.2 sampleState [2, 3] [InteropOp.acquire [2, 3, 4] 4 true] (by decide)⟩

/-- C3: `evictStale(S)` releases exactly the cache entries whose handles
are absent from `S`: lookups of live handles are unchanged, lookups of
evicted handles report no entry, every entry with a live handle survives
verbatim, and every native texture of a stale entry is destroyed (removed
from the live allocations). -/
theorem evictStale_releases_exactly_stale :
    ∀ (st : InteropState) (S : List Nat),
      (∀ h ∈ S, lookup (evictStale st S).m_openglTextures h =
          lookup st.m_openglTextures h) ∧
      (∀ h : Nat, h ∉ S → lookup (evictStale st S).m_openglTextures h = none) ∧
      (∀ e ∈ st.m_openglTextures, e.1 ∈ S → e ∈ (evictStale st S).m_openglTextures) ∧
      (∀ t : Nat,
          t ∈ texturesOf (st.m_openglTextures.filter (fun e => decide (e.1 ∉ S))) →
          t ∉ (evictStale st S).allocations) := by
  intro st S
  refine ⟨?_, ?_, ?_, ?_⟩
  · intro h hS
    rw [evictStale]
    exact lookup_filter_of_mem hS st.m_openglTextures
  · intro h hS
    rw [evictStale]
    exact lookup_filter_of_not_mem hS st.m_openglTextures
  · intro e he heS
    rw [evictStale]
    exact List.mem_filter.mpr ⟨he, by simpa using heS⟩
  · intro t ht hmem
    rw [evictStale] at hmem
    rcases List.mem_filter.mp hmem with ⟨_, hp⟩
    exact (of_decide_eq_true hp) ht

/-- Witness for C3: on the sample state (handles 1, 2, 3 cached), after
`evictStale [2, 3]` the entries for 2 and 3 are untouched, handle 1 has no
entry any more, and its backing texture 10 is freed. -/
theorem evictStale_releases_exactly_stale_witness :
    lookup (evictStale sampleState [2, 3]).m_openglTextures 2 =
      lookup sampleState.m_openglTextures 2 ∧
    lookup (evictStale sampleState [2, 3]).m_openglTextures 1 = none ∧
    (2, [11]) ∈ (evictStale sampleState [2, 3]).m_openglTextures ∧
    (10 : Nat) ∉ (evictStale sampleState [2, 3]).allocations :=
  ⟨(evictStale_releases_exactly_stale sampleState [2, 3]).1 2 (by decide),
   (evictStale_releases_exactly_stale sampleState [2, 3]).2.1 1 (by decide),
   (evictStale_releases_exactly_stale sampleState [2, 3]).2.2.1 (2, [11]) (by decide)
     (by decide),
   (evictStale_releases_exactly_stale sampleState [2, 3]).2.2.2 10 (by decide)⟩

/-- C4: `Acquire` fails softly — with a handle outside the provider's live
set it returns an empty texture set and leaves the state (cache, live
allocations, counter) unchanged, and likewise when the handle is uncached
and the backend-specific native import fails. -/
theorem acquire_soft_failure :
    ∀ (st : InteropState) (live : List Nat) (h : Nat),
      (∀ ok : Bool, h ∉ live → Acquire st live h ok = (st, [])) ∧
      (lookup st.m_openglTextures h = none → Acquire st live h false = (st, [])) := by
  intro st live h
  constructor
  · intro ok hl
    exact Acquire_not_live hl
  · intro hc
    by_cases hl : h ∈ live
    · exact Acquire_miss_fail hl hc
    · exact Acquire_not_live hl

/-- Witness for C4: on the sample state, acquiring the dead handle 7
returns an empty set and changes nothing, as does acquiring the live but
uncached handle 5 when the native import fails. -/
theorem acquire_soft_failure_witness :
    Acquire sampleState [1, 2, 3] 7 true = (sampleState, []) ∧
    Acquire sampleState [1, 2, 3, 5] 5 false = (sampleState, []) :=
  ⟨(acquire_soft_failure sampleState [1, 2, 3] 7).1 true (by decide),
   (acquire_soft_failure sampleState [1, 2, 3, 5] 5).2 (by decide)⟩

/-- C7: destroying an Interop Instance releases every native texture it
created: after any sequence of `Acquire` / `evictStale` operations from
construction, running the destructor leaves zero live allocations and an
empty cache. -/
theorem destroy_releases_all_allocations (ctx : Nat) (ty : InteropType)
    (ops : List InteropOp) :
    (destroy (runOps (mkInterop ctx ty) ops)).allocations = [] ∧
    (destroy (runOps (mkInterop ctx ty) ops)).m_openglTextures = [] := by
  have hinv := allocInv_runOps ctx ty ops
  constructor
  · rw [destroy]
    refine List.filter_eq_nil_iff.mpr ?_
    intro t ht
    simp only [decide_eq_true_eq, Decidable.not_not]
    exact hinv t ht
  · rw [destroy]

/-- C8: the `InteropType` and the graphics-context binding fixed by the
constructor never change: after any operation sequence `GetType` still
reports the constructed type and `m_context` still refers to the
constructed context. -/
theorem type_and_context_fixed (ctx : Nat) (ty : InteropType) (ops : List InteropOp) :
    GetType (runOps (mkInterop ctx ty) ops) = ty ∧
    (runOps (mkInterop ctx ty) ops).m_context = ctx := by
  have h := runOps_context_type (mkInterop ctx ty) ops
  exact ⟨by rw [GetType, h.2]; simp [mkInterop], by rw [h.1]; simp [mkInterop]⟩

end MythTV.Interop

namespace MythTV

/-- C5: `GetInteropType` is a pure function of the codec descriptor and the
platform availability flags — repeated calls agree — and for every
supported (codec, platform) pair it returns a hardware backend tag, never
`Unsupported`. -/
theorem getInteropType_deterministic_supported :
    (∀ (c : CodecAccel) (p : Platform), GetInteropType c p = GetInteropType c p) ∧
    (∀ (c : CodecAccel) (p : Platform), supportedPair c p = true →
        GetInteropType c p ≠ InteropType.Unsupported) := by
  refine ⟨fun c p => rfl, ?_⟩
  intro c p hsup
  cases c with
  | vaapi =>
      cases hE : p.vaapiEGLDRM <;> cases hP : p.vaapiGLXPix <;>
        cases hC : p.vaapiGLXCopy <;>
        simp_all [GetInteropType, supportedPair]
  | vtb =>
      cases hS : p.vtbSurface <;> cases hO : p.vtbOpenGL <;>
        simp_all [GetInteropType, supportedPair]
  | mediacodec =>
      cases hM : p.mediacodec <;> simp_all [GetInteropType, supportedPair]
  | vdpau =>
      cases hV : p.vdpau <;> simp_all [GetInteropType, supportedPair]
  | nvdec =>
      cases hN : p.nvdec <;> simp_all [GetInteropType, supportedPair]
  | software => simp [supportedPair] at hsup

/-- Witness for C5: a VDPAU codec on a platform where every backend probe
succeeded selects a hardware backend, not `Unsupported`. -/
theorem getInteropType_deterministic_supported_witness :
    GetInteropType CodecAccel.vdpau allPlatform ≠ InteropType.Unsupported :=
  getInteropType_deterministic_supported.2 CodecAccel.vdpau allPlatform (by decide)

/-- C6: for every (codec, platform) pair with no viable hardware backend,
`GetInteropType` returns `Unsupported` and `GetAllowedRenderers` returns a
software-only renderer set. -/
theorem unsupported_pair_software_only (c : CodecAccel) (p : Platform)
    (hsup : supportedPair c p = false) :
    GetInteropType c p = InteropType.Unsupported ∧
    ∀ r ∈ GetAllowedRenderers c p, r ∈ softwareRenderers := by
  constructor
  · cases c with
    | vaapi =>
        cases hE : p.vaapiEGLDRM <;> cases hP : p.vaapiGLXPix <;>
          cases hC : p.vaapiGLXCopy <;>
          simp_all [GetInteropType, supportedPair]
    | vtb =>
        cases hS : p.vtbSurface <;> cases hO : p.vtbOpenGL <;>
          simp_all [GetInteropType, supportedPair]
    | mediacodec =>
        cases hM : p.mediacodec <;> simp_all [GetInteropType, supportedPair]
    | vdpau =>
        cases hV : p.vdpau <;> simp_all [GetInteropType, supportedPair]
    | nvdec =>
        cases hN : p.nvdec <;> simp_all [GetInteropType, supportedPair]
    | software => rfl
  · intro r hr
    rw [GetAllowedRenderers, hsup] at hr
    simpa using hr

/-- Witness for C6: a software codec has no hardware backend on any
platform; the selector reports `Unsupported` and only the software
renderer is allowed. -/
theorem unsupported_pair_software_only_witness :
    GetInteropType CodecAccel.software allPlatform = InteropType.Unsupported ∧
    ∀ r ∈ GetAllowedRenderers CodecAccel.software allPlatform,
      r ∈ softwareRenderers :=
  unsupported_pair_software_only CodecAccel.software allPlatform (by decide)

/-- C9: in the `MythOpenGLInterop::Type` enumeration `Unsupported` has the
numeric value 0 and every hardware backend tag is nonzero, so a
zero-initialized interop type denotes the unsupported case. -/
theorem unsupported_is_zero_backends_nonzero :
    typeValue InteropType.Unsupported = 0 ∧
    ∀ t : InteropType, t ≠ InteropType.Unsupported → typeValue t ≠ 0 := by
  refine ⟨rfl, ?_⟩
  intro t ht
  cases t <;> simp_all [typeValue]

/-- Witness for C9: the VDPAU backend tag has the nonzero value 7. -/
theorem unsupported_is_zero_backends_nonzero_witness :
    typeValue InteropType.VDPAU ≠ 0 :=
  unsupported_is_zero_backends_nonzero.2 InteropType.VDPAU (by decide)

end MythTV

namespace MythTV.CA

theorem renderAudio_ret_eq {st : CAState} (aubuf avail : List Nat)
    (h : (st.m_pauseAudio || st.m_killAudio) = false) :
    (RenderAudio st aubuf avail).2.2 = decide (0 < min avail.length aubuf.length) := by
  simp [RenderAudio, GetAudioData, h, List.length_take, Nat.min_comm]

/-- C10: `RenderAudio` returns false without writing when playback is
paused or being killed, setting the actually-paused flag; otherwise with
0 < w < s bytes of real audio available for an s-byte buffer it writes the
real bytes and zero fills the remaining s - w bytes, and it returns true
exactly when w > 0; consequently `RenderCallbackAnalog` outputs full
silence (sets the output-is-silence flag and clears the buffer) precisely
when no real audio byte was produced. -/
theorem renderAudio_silence_contract :
    (∀ (st : CAState) (aubuf avail : List Nat),
        (st.m_pauseAudio || st.m_killAudio) = true →
        RenderAudio st aubuf avail = ({ st with m_actuallyPaused := true }, aubuf, false)) ∧
    (∀ (st : CAState) (aubuf avail : List Nat),
        (st.m_pauseAudio || st.m_killAudio) = false →
        0 < avail.length → avail.length < aubuf.length →
        (RenderAudio st aubuf avail).2.1 =
          avail ++ List.replicate (aubuf.length - avail.length) 0) ∧
    (∀ (st : CAState) (aubuf avail : List Nat),
        (st.m_pauseAudio || st.m_killAudio) = false →
        ((RenderAudio st aubuf avail).2.2 = true ↔ 0 < min avail.length aubuf.length)) ∧
    (∀ (st : CAState) (aubuf avail : List Nat),
        (st.m_pauseAudio || st.m_killAudio) = false →
        ((RenderCallbackAnalog st aubuf avail).2.2 = true ↔
          min avail.length aubuf.length = 0)) ∧
    (∀ (st : CAState) (aubuf avail : List Nat),
        (RenderCallbackAnalog st aubuf avail).2.2 = true →
        (RenderCallbackAnalog st aubuf avail).2.1 = List.replicate aubuf.length 0) := by
  refine ⟨?_, ?_, ?_, ?_, ?_⟩
  · intro st aubuf avail hp
    simp [RenderAudio, hp]
  · intro st aubuf avail hp h0 hlt
    have hwr : avail.take aubuf.length = avail :=
      List.take_of_length_le (Nat.le_of_lt hlt)
    have hne : avail.length ≠ 0 := Nat.pos_iff_ne_zero.mp h0
    simp [RenderAudio, GetAudioData, hp, hwr, hne, hlt, List.take_left]
  · intro st aubuf avail hp
    rw [renderAudio_ret_eq aubuf avail hp]
    exact decide_eq_true_iff
  · intro st aubuf avail hp
    have hret := renderAudio_ret_eq aubuf avail hp
    cases hr : (RenderAudio st aubuf avail).2.2 with
    | true =>
        rw [hr] at hret
        have hpos : 0 < min avail.length aubuf.length := of_decide_eq_true hret.symm
        have hres : (RenderCallbackAnalog st aubuf avail).2.2 = false := by
          simp [RenderCallbackAnalog, hr]
        rw [hres]
        constructor
        · intro hx; exact Bool.noConfusion hx
        · intro hx; exact absurd hx (by omega)
    | false =>
        rw [hr] at hret
        have hz : ¬ (0 < min avail.length aubuf.length) := by
          intro hx
          rw [decide_eq_true hx] at hret
          exact Bool.noConfusion hret
        have hres : (RenderCallbackAnalog st aubuf avail).2.2 = true := by
          simp [RenderCallbackAnalog, hr]
        rw [hres]
        constructor
        · intro _; omega
        · intro _; rfl
  · intro st aubuf avail hflag
    cases hr : (RenderAudio st aubuf avail).2.2 with
    | true => simp [RenderCallbackAnalog, hr] at hflag
    | false => simp [RenderCallbackAnalog, hr]

/-- Witness for C10: with pause requested the call reports paused and
returns false; with 2 real bytes for a 4-byte buffer the output is the
real bytes followed by 2 bytes of silence; with no real audio pending the
callback produces full silence. -/
theorem renderAudio_silence_contract_witness :
    RenderAudio ⟨true, false, false⟩ [9, 9] [5] = (⟨true, false, true⟩, [9, 9], false) ∧
    (RenderAudio ⟨false, false, false⟩ [9, 9, 9, 9] [5, 4]).2.1 =
      [5, 4] ++ List.replicate ([9, 9, 9, 9].length - [5, 4].length) 0 ∧
    (RenderCallbackAnalog ⟨false, false, false⟩ [9, 9] []).2.2 = true :=
  ⟨renderAudio_silence_contract.1 ⟨true, false, false⟩ [9, 9] [5] (by decide),
   renderAudio_silence_contract.2.1 ⟨false, false, false⟩ [9, 9, 9, 9] [5, 4]
     (by decide) (by decide) (by decide),
   (renderAudio_silence_contract.2.2.2.1 ⟨false, false, false⟩ [9, 9] []
     (by decide)).mpr (by decide)⟩

end MythTV.CA
